import Mathlib

/-
Verification of the job-queue and worker-coordination layer of the
bus-alerts repository (consumer.py), as a shallow embedding: the MinIO
bucket is a key/blob map with explicit fault flags, the JSON metadata
record is an association list of fields, and each function of the source
is translated into an executable Lean definition over that state.
-/

namespace Consumer

/-- A JSON scalar value as it occurs in a job metadata record. -/
inductive Jval where
  | jstr (s : String)
  | jnum (n : Int)
  | jbool (b : Bool)
  | jnull
  deriving DecidableEq, Repr

/-- A parsed metadata.json document: a JSON object, that is a Python dict,
modelled as an association list of fields. -/
abbrev Meta := List (String × Jval)

/-- Python dict.get: the first binding of the key, if any. -/
def metaGet (m : Meta) (k : String) : Option Jval :=
  match m with
  | [] => none
  | (k', v) :: rest => if k' = k then some v else metaGet rest k

/-- Python dict assignment: replace the binding of the key in place, or
append a new binding at the end. -/
def setKey (m : Meta) (k : String) (v : Jval) : Meta :=
  match m with
  | [] => [(k, v)]
  | (k', v') :: rest => if k' = k then (k, v) :: rest else (k', v') :: setKey rest k v

/-- An object stored in the bucket: either bytes that json.loads parses to
an object (a metadata record), or opaque bytes (zip payloads, the LOCKED
lock marker, heartbeat or corrupt documents). -/
inductive Blob where
  | jmeta (m : Meta)
  | raw (bytes : String)
  deriving DecidableEq, Repr

/-- The MinIO bucket: objects keyed by path in listing order, together
with the store faults the environment injects on this window (a get, put
or delete of a listed key raises S3Error, or listing raises). -/
structure Store where
  objects : List (String × Blob)
  failGet : List String
  failPut : List String
  failDelete : List String
  failList : Bool
  deriving DecidableEq, Repr

/-- First binding of a key in the bucket contents. -/
def lookupKey (l : List (String × Blob)) (k : String) : Option Blob :=
  match l with
  | [] => none
  | (k', b) :: rest => if k' = k then some b else lookupKey rest k

/-- put_object overwrite: replace the blob at the key in place, or append
the key at the end of the listing order. -/
def putKey (l : List (String × Blob)) (k : String) (b : Blob) : List (String × Blob) :=
  match l with
  | [] => [(k, b)]
  | (k', b') :: rest => if k' = k then (k, b) :: rest else (k', b') :: putKey rest k b

/-- Drop every binding of a key from the bucket contents. -/
def removeKey (l : List (String × Blob)) (k : String) : List (String × Blob) :=
  match l with
  | [] => []
  | (k', b) :: rest => if k' = k then removeKey rest k else (k', b) :: removeKey rest k

/-- minio get_object: raises on an injected fault or a missing key. -/
def Store.getObject (s : Store) (k : String) : Except Unit Blob :=
  if k ∈ s.failGet then Except.error ()
  else
    match lookupKey s.objects k with
    | some b => Except.ok b
    | none => Except.error ()

/-- minio put_object: raises on an injected fault, else overwrites. -/
def Store.putObject (s : Store) (k : String) (b : Blob) : Except Unit Store :=
  if k ∈ s.failPut then Except.error ()
  else Except.ok { s with objects := putKey s.objects k b }

/-- minio remove_object: raises on an injected fault; deleting a missing
key succeeds silently (S3 delete semantics). -/
def Store.removeObject (s : Store) (k : String) : Except Unit Store :=
  if k ∈ s.failDelete then Except.error ()
  else Except.ok { s with objects := removeKey s.objects k }

/-- Character-list test that p is an initial segment of k. -/
def listPre : List Char → List Char → Bool
  | [], _ => true
  | _ :: _, [] => false
  | p :: ps, k :: ks => if p = k then listPre ps ks else false

/-- String key starts with the given path piece. -/
def keyStarts (k p : String) : Bool := listPre p.toList k.toList

/-- The keys under a path piece, in listing order. -/
def keysUnder (l : List (String × Blob)) (p : String) : List String :=
  match l with
  | [] => []
  | (k, _) :: rest => if keyStarts k p then k :: keysUnder rest p else keysUnder rest p

/-- minio list_objects under a path piece (the lock keys have no further
slash, so the non-recursive listing returns them directly). -/
def Store.listKeysUnder (s : Store) (p : String) : Except Unit (List String) :=
  if s.failList then Except.error ()
  else Except.ok (keysUnder s.objects p)

/-- The key of this worker's GPU lease marker. -/
def lockKey (wid : String) : String := "gpu_locks/" ++ wid ++ ".lock"

/-- The key of a job's metadata record. -/
def metaKey (jobId : String) : String := jobId ++ "/metadata.json"

/-- The key of a job's payload archive. -/
def zipKey (jobId : String) : String := jobId ++ "/images.zip"

/-- The key of a job's persisted result document. -/
def resultsKey (jobId : String) : String := jobId ++ "/results.json"

/-- The number of lease keys currently held in the bucket. -/
def lockCount (s : Store) : Nat := (keysUnder s.objects "gpu_locks/").length

/-- acquire_gpu_lock of consumer.py. If the limit is non-positive leasing
is disabled. Otherwise: list the lock keys; when fewer than the limit,
write this worker's lock marker, re-list, and if the count now exceeds the
limit delete the just-written marker and fail; any raised store error is
caught and reported as failure. The race argument is the interference by
other workers inside the window between the write and the re-listing; a
serialized execution has an empty window, race = id. -/
def acquire_gpu_lock (race : Store → Store) (s : Store) (wid : String) (n : Int) :
    Bool × Store :=
  if n ≤ 0 then (true, s)
  else
    match s.listKeysUnder "gpu_locks/" with
    | Except.error _ => (false, s)
    | Except.ok locks =>
      if (locks.length : Int) < n then
        match s.putObject (lockKey wid) (Blob.raw "LOCKED") with
        | Except.error _ => (false, s)
        | Except.ok s1 =>
          match (race s1).listKeysUnder "gpu_locks/" with
          | Except.error _ => (false, race s1)
          | Except.ok locks2 =>
            if (locks2.length : Int) > n then
              match (race s1).removeObject (lockKey wid) with
              | Except.error _ => (false, race s1)
              | Except.ok s3 => (false, s3)
            else (true, race s1)
      else (false, s)

/-- release_gpu_lock of consumer.py: best-effort delete of this worker's
own lock key; a raised store error is swallowed, so the call is total. -/
def release_gpu_lock (s : Store) (wid : String) : Store :=
  match s.removeObject (lockKey wid) with
  | Except.ok s1 => s1
  | Except.error _ => s

/-- The characters of a key strictly before its first slash, when the key
has one. -/
def takeUntilSlash : List Char → Option (List Char)
  | [] => none
  | c :: rest =>
    if c = '/' then some []
    else
      match takeUntilSlash rest with
      | none => none
      | some l => some (c :: l)

/-- The top-level directory entry (obj.is_dir, trailing slash already
stripped) that a key contributes to a non-recursive bucket listing; none
for a key without a slash, which the listing reports as a plain object and
the source skips. -/
def dirOfKey (k : String) : Option String :=
  match takeUntilSlash k.toList with
  | none => none
  | some l => some (String.mk l)

/-- Keep the first occurrence of each entry, dropping later repeats. -/
def dedupGo : List String → List String → List String
  | [], _ => []
  | x :: xs, seen => if x ∈ seen then dedupGo xs seen else x :: dedupGo xs (x :: seen)

/-- Each distinct entry once, in first-occurrence order. -/
def dedupKeepFirst (l : List String) : List String := dedupGo l []

/-- The top-level directory entries of a non-recursive listing of the
bucket, each once, in listing order. -/
def topDirs (s : Store) : List String :=
  dedupKeepFirst (s.objects.filterMap (fun p => dirOfKey p.1))

/-- The non-recursive listing of the whole bucket, restricted to its
directory entries; raises when listing raises. -/
def Store.listTopDirs (s : Store) : Except Unit (List String) :=
  if s.failList then Except.error () else Except.ok (topDirs s)

/-- The body of the get_pending_jobs loop for one candidate entry: skip
the reserved workers and gpu_locks directories, read and parse the
candidate's metadata.json, keep it only when its status is pending; a
read or parse that raises is caught and skips the candidate. -/
def pendingEntry (s : Store) (jobId : String) : Option (String × Meta) :=
  if jobId = "workers" ∨ jobId = "gpu_locks" then none
  else
    match s.getObject (metaKey jobId) with
    | Except.error _ => none
    | Except.ok (Blob.raw _) => none
    | Except.ok (Blob.jmeta m) =>
      if metaGet m "status" = some (Jval.jstr "pending") then some (jobId, m)
      else none

/-- get_pending_jobs of consumer.py: list the top-level entries and run
the candidate body over them in listing order; a failure of the listing
itself is caught and yields the empty list. -/
def get_pending_jobs (s : Store) : List (String × Meta) :=
  match s.listTopDirs with
  | Except.error _ => []
  | Except.ok dirs => dirs.filterMap (pendingEntry s)

/-- The three successive dict assignments of update_job_status: status,
worker_id, updated_at. -/
def bumpMeta (m : Meta) (status wid now : String) : Meta :=
  setKey (setKey (setKey m "status" (Jval.jstr status)) "worker_id" (Jval.jstr wid))
    "updated_at" (Jval.jstr now)

/-- update_job_status of consumer.py: download the record, set its status,
worker_id and updated_at fields, upload it back; true on success, false
with no write when any store call or the parse raises. The results
argument is accepted and never used, exactly as in the source. -/
def update_job_status (s : Store) (wid now jobId status : String)
    (results : Option Meta) : Bool × Store :=
  match s.getObject (metaKey jobId) with
  | Except.error _ => (false, s)
  | Except.ok (Blob.raw _) => (false, s)
  | Except.ok (Blob.jmeta m) =>
    match s.putObject (metaKey jobId) (Blob.jmeta (bumpMeta m status wid now)) with
    | Except.error _ => (false, s)
    | Except.ok s1 => (true, s1)

/-- claim_job of consumer.py: refuse unless the record handed to the claim
says pending, else transition it to processing through update_job_status. -/
def claim_job (s : Store) (wid now jobId : String) (meta : Meta) : Bool × Store :=
  if metaGet meta "status" ≠ some (Jval.jstr "pending") then (false, s)
  else update_job_status s wid now jobId "processing" none

/-- Drop one temp directory identifier from the live list. -/
def removeTemp : List Nat → Nat → List Nat
  | [], _ => []
  | t :: rest, td => if t = td then removeTemp rest td else t :: removeTemp rest td

/-- The in-process worker state around one process_job call: the bucket,
the advisory processed and failed tallies, the count of back-off sleeps
performed, the live local temp directories and the next temp identifier
(tempfile.mkdtemp always yields a fresh one). -/
structure WState where
  store : Store
  processedCt : Nat
  failedCt : Nat
  backoffs : Nat
  temps : List Nat
  tempCtr : Nat
  deriving DecidableEq, Repr

/-- The outcome the environment gives the requests.post call to the
container API: an HTTP response with a status code (body is the parsed
json used by the 200 branch, text the raw body used by the error branch),
a requests.Timeout, or any other exception raised while downloading worked
but extracting, re-zipping or posting did not. -/
inductive BackendOutcome where
  | http (code : Int) (body : Meta) (text : String)
  | timeout
  | exn (msg : String)
  deriving DecidableEq, Repr

/-- The environment of one process_job call: whether the shutdown flag was
seen while polling for a GPU slot (the wait loop then exits without the
lock and the body returns at once), the backend outcome otherwise, and the
wall clock datetime.now() stamps updated_at with. -/
structure PEnv where
  shutdownDuringWait : Bool
  backend : BackendOutcome
  now : String
  deriving DecidableEq, Repr

/-- The finally block of process_job: release the GPU lock, reset the
advisory status, and remove the temp directory when one was created. -/
def finallyCleanup (wid : String) (t : Option Nat) (w : WState) : WState :=
  let s1 := release_gpu_lock w.store wid
  match t with
  | none => { w with store := s1 }
  | some td => { w with store := s1, temps := removeTemp w.temps td }

/-- process_job of consumer.py. The wait loop (while not shutdown and not
acquire_gpu_lock, sleep 2) is modelled by its two exits: with
env.shutdownDuringWait the shutdown flag was seen first and no lock is
held; otherwise the last acquire_gpu_lock call succeeded, whose net effect
on the bucket is this worker's lock marker being written. After the slot,
mkdtemp a temp directory, download the payload (a raised store error lands
in the generic except handler, which marks the job failed), and branch on
the backend outcome: 200 writes results.json then marks completed and
counts processed; 503 sleeps 5s, counts an attempt-level failure and
requeues the record to pending; any other code, a Timeout or any other
exception marks the job failed with an error detail handed to
update_job_status, and counts failed. The finally block runs on every
exit. -/
def process_job (env : PEnv) (wid jobId : String) (w : WState) : Bool × WState :=
  if env.shutdownDuringWait then
    (false, finallyCleanup wid none w)
  else
    let sAcq : Store :=
      { w.store with objects := putKey w.store.objects (lockKey wid) (Blob.raw "LOCKED") }
    let t := w.tempCtr
    let w1 : WState := { w with store := sAcq, temps := t :: w.temps, tempCtr := w.tempCtr + 1 }
    match sAcq.getObject (zipKey jobId) with
    | Except.error _ =>
      let s2 := (update_job_status sAcq wid env.now jobId "failed"
        (some [("error", Jval.jstr "S3Error")])).2
      (false, finallyCleanup wid (some t) { w1 with store := s2, failedCt := w1.failedCt + 1 })
    | Except.ok _ =>
      match env.backend with
      | BackendOutcome.http code body text =>
        if code = 200 then
          match sAcq.putObject (resultsKey jobId) (Blob.jmeta body) with
          | Except.error _ =>
            let s2 := (update_job_status sAcq wid env.now jobId "failed"
              (some [("error", Jval.jstr "S3Error")])).2
            (false,
              finallyCleanup wid (some t) { w1 with store := s2, failedCt := w1.failedCt + 1 })
          | Except.ok sRes =>
            let s2 := (update_job_status sRes wid env.now jobId "completed" (some body)).2
            (true,
              finallyCleanup wid (some t)
                { w1 with store := s2, processedCt := w1.processedCt + 1 })
        else if code = 503 then
          let w2 : WState := { w1 with failedCt := w1.failedCt + 1, backoffs := w1.backoffs + 1 }
          let s2 := (update_job_status sAcq wid env.now jobId "pending" none).2
          (false, finallyCleanup wid (some t) { w2 with store := s2 })
        else
          let s2 := (update_job_status sAcq wid env.now jobId "failed"
            (some [("error", Jval.jstr text)])).2
          (false, finallyCleanup wid (some t) { w1 with store := s2, failedCt := w1.failedCt + 1 })
      | BackendOutcome.timeout =>
        let s2 := (update_job_status sAcq wid env.now jobId "failed"
          (some [("error", Jval.jstr "Timeout")])).2
        (false, finallyCleanup wid (some t) { w1 with store := s2, failedCt := w1.failedCt + 1 })
      | BackendOutcome.exn msg =>
        let s2 := (update_job_status sAcq wid env.now jobId "failed"
          (some [("error", Jval.jstr msg)])).2
        (false, finallyCleanup wid (some t) { w1 with store := s2, failedCt := w1.failedCt + 1 })

/-- A serialized lease operation: one acquisition attempt or one release
by a worker. -/
inductive LeaseOp where
  | acq (wid : String)
  | rel (wid : String)
  deriving DecidableEq, Repr

/-- Apply one serialized lease operation (empty race window) to the
bucket. -/
def applyLeaseOp (n : Int) (s : Store) : LeaseOp → Store
  | LeaseOp.acq wid => (acquire_gpu_lock (fun t => t) s wid n).2
  | LeaseOp.rel wid => release_gpu_lock s wid

/-- Run a sequence of serialized lease operations. -/
def runLeaseOps (n : Int) (s : Store) : List LeaseOp → Store
  | [] => s
  | op :: rest => runLeaseOps n (applyLeaseOp n s op) rest

/-- The bucket after the lock write of an acquisition attempt. -/
def withLock (s : Store) (wid : String) : Store :=
  { s with objects := putKey s.objects (lockKey wid) (Blob.raw "LOCKED") }

/-- The bucket after an acquisition attempt deletes its own just-written
lock. -/
def dropOwnLock (s : Store) (wid : String) : Store :=
  { s with objects := removeKey s.objects (lockKey wid) }

/-- A concrete pending job record, as the ingestion endpoint writes it. -/
def demoMeta : Meta :=
  [("job_id", Jval.jstr "jobA"), ("status", Jval.jstr "pending"),
   ("bus_number", Jval.jstr "B7"), ("latlong", Jval.jstr "1.0,2.0")]

/-- A concrete bucket: one pending job with its payload, one completed
job, one corrupt metadata document, a heartbeat and a foreign lock. -/
def demoStore : Store :=
  { objects := [
      (metaKey "jobA", Blob.jmeta demoMeta),
      (zipKey "jobA", Blob.raw "zipbytes"),
      (metaKey "jobB", Blob.jmeta [("status", Jval.jstr "completed")]),
      (metaKey "jobC", Blob.raw "corrupt json"),
      ("workers/w9.json", Blob.raw "heartbeat"),
      (lockKey "w9", Blob.raw "LOCKED")],
    failGet := [], failPut := [], failDelete := [], failList := false }

/-- The same bucket with the listing raising a store error. -/
def demoBroken : Store :=
  { demoStore with failList := true }

/-- The demo bucket with the read of jobB's metadata raising a store
error, so that both a faulted candidate (jobB) and a corrupt one (jobC)
sit next to the intact pending jobA. -/
def demoFaulted : Store :=
  { demoStore with failGet := [metaKey "jobB"] }

/-- A bucket holding nothing, no faults injected. -/
def emptyStore : Store :=
  { objects := [], failGet := [], failPut := [], failDelete := [], failList := false }

/-- A concrete claimed job record (already transitioned to processing). -/
def demoClaimedMeta : Meta :=
  [("job_id", Jval.jstr "jobA"), ("status", Jval.jstr "processing"),
   ("bus_number", Jval.jstr "B7"), ("worker_id", Jval.jstr "w1")]

/-- A bucket in which jobA has been claimed and its payload is present. -/
def demoClaimedStore : Store :=
  { objects := [(metaKey "jobA", Blob.jmeta demoClaimedMeta), (zipKey "jobA", Blob.raw "zipbytes")],
    failGet := [], failPut := [], failDelete := [], failList := false }

/-- A fresh worker state over the demo bucket. -/
def demoW : WState :=
  { store := demoStore, processedCt := 0, failedCt := 0, backoffs := 0,
    temps := [], tempCtr := 0 }

/-- A fresh worker state over the claimed-job bucket. -/
def demoClaimedW : WState :=
  { store := demoClaimedStore, processedCt := 0, failedCt := 0, backoffs := 0,
    temps := [], tempCtr := 0 }

/-- Interference by a second worker that writes its own lock inside the
race window of an acquisition. -/
def demoRace : Store → Store :=
  fun t => { t with objects := putKey t.objects (lockKey "w2") (Blob.raw "LOCKED") }

lemma lookupKey_putKey_self (l : List (String × Blob)) (k : String) (b : Blob) :
    lookupKey (putKey l k b) k = some b := by
  induction l with
  | nil => simp [putKey, lookupKey]
  | cons p rest ih =>
    obtain ⟨k', b'⟩ := p
    by_cases h : k' = k <;> simp [putKey, lookupKey, h, ih]

lemma lookupKey_putKey_ne (l : List (String × Blob)) (k k' : String) (b : Blob)
    (h : k' ≠ k) : lookupKey (putKey l k b) k' = lookupKey l k' := by
  induction l with
  | nil => simp [putKey, lookupKey, Ne.symm h]
  | cons p rest ih =>
    obtain ⟨k0, b0⟩ := p
    by_cases h0 : k0 = k
    · subst h0
      simp [putKey, lookupKey, Ne.symm h]
    · by_cases h1 : k0 = k' <;> simp [putKey, lookupKey, h, h0, h1, ih]

lemma lookupKey_removeKey_self (l : List (String × Blob)) (k : String) :
    lookupKey (removeKey l k) k = none := by
  induction l with
  | nil => simp [removeKey, lookupKey]
  | cons p rest ih =>
    obtain ⟨k0, b0⟩ := p
    by_cases h0 : k0 = k <;> simp [removeKey, lookupKey, h0, ih]

lemma lookupKey_removeKey_ne (l : List (String × Blob)) (k k' : String)
    (h : k' ≠ k) : lookupKey (removeKey l k) k' = lookupKey l k' := by
  induction l with
  | nil => simp [removeKey, lookupKey]
  | cons p rest ih =>
    obtain ⟨k0, b0⟩ := p
    by_cases h0 : k0 = k
    · subst h0
      simp [removeKey, lookupKey, Ne.symm h, ih]
    · by_cases h1 : k0 = k' <;> simp [removeKey, lookupKey, h, h0, h1, ih]

lemma removeKey_of_lookup_none (l : List (String × Blob)) (k : String)
    (h : lookupKey l k = none) : removeKey l k = l := by
  induction l with
  | nil => simp [removeKey]
  | cons p rest ih =>
    obtain ⟨k0, b0⟩ := p
    by_cases h0 : k0 = k
    · simp [lookupKey, h0] at h
    · simp [lookupKey, h0] at h
      simp [removeKey, h0, ih h]

lemma lookupKey_some_mem (l : List (String × Blob)) (k : String) (b : Blob)
    (h : lookupKey l k = some b) : (k, b) ∈ l := by
  induction l with
  | nil => simp [lookupKey] at h
  | cons p rest ih =>
    obtain ⟨k0, b0⟩ := p
    by_cases h0 : k0 = k
    · subst h0
      simp [lookupKey] at h
      simp [h]
    · simp [lookupKey, h0] at h
      simp [ih h]

lemma metaGet_setKey_self (m : Meta) (k : String) (v : Jval) :
    metaGet (setKey m k v) k = some v := by
  induction m with
  | nil => simp [setKey, metaGet]
  | cons p rest ih =>
    obtain ⟨k0, v0⟩ := p
    by_cases h0 : k0 = k <;> simp [setKey, metaGet, h0, ih]

lemma metaGet_setKey_ne (m : Meta) (k k' : String) (v : Jval)
    (h : k' ≠ k) : metaGet (setKey m k v) k' = metaGet m k' := by
  induction m with
  | nil => simp [setKey, metaGet, Ne.symm h]
  | cons p rest ih =>
    obtain ⟨k0, v0⟩ := p
    by_cases h0 : k0 = k
    · subst h0
      simp [setKey, metaGet, Ne.symm h]
    · by_cases h1 : k0 = k' <;> simp [setKey, metaGet, h, h0, h1, ih]

lemma keysUnder_putKey_le (l : List (String × Blob)) (k : String) (b : Blob)
    (p : String) :
    (keysUnder (putKey l k b) p).length ≤ (keysUnder l p).length + 1 := by
  induction l with
  | nil =>
    simp only [putKey, keysUnder]
    split <;> simp
  | cons q rest ih =>
    obtain ⟨k0, b0⟩ := q
    by_cases h0 : k0 = k
    · subst h0
      simp only [putKey, if_pos rfl, keysUnder]
      by_cases hks : keyStarts k0 p <;> simp [hks]
    · simp only [putKey, if_neg h0, keysUnder]
      by_cases hks : keyStarts k0 p <;> simp only [hks, if_pos, if_neg,
        Bool.not_eq_true, List.length_cons] <;> omega

lemma keysUnder_removeKey_le (l : List (String × Blob)) (k : String)
    (p : String) :
    (keysUnder (removeKey l k) p).length ≤ (keysUnder l p).length := by
  induction l with
  | nil => simp [removeKey]
  | cons q rest ih =>
    obtain ⟨k0, b0⟩ := q
    by_cases h0 : k0 = k
    · simp only [removeKey, if_pos h0, keysUnder]
      by_cases hks : keyStarts k0 p <;> simp only [hks, if_pos, if_neg,
        Bool.not_eq_true, List.length_cons] <;> omega
    · simp only [removeKey, if_neg h0, keysUnder]
      by_cases hks : keyStarts k0 p <;> simp only [hks, if_pos, if_neg,
        Bool.not_eq_true, List.length_cons] <;> omega

lemma putObject_ok (s s' : Store) (k : String) (b : Blob)
    (h : s.putObject k b = Except.ok s') :
    k ∉ s.failPut ∧ s' = { s with objects := putKey s.objects k b } := by
  unfold Store.putObject at h
  by_cases hc : k ∈ s.failPut <;> simp [hc] at h
  exact ⟨hc, h.symm⟩

lemma getObject_ok (s : Store) (k : String) (b : Blob)
    (h : s.getObject k = Except.ok b) :
    k ∉ s.failGet ∧ lookupKey s.objects k = some b := by
  unfold Store.getObject at h
  by_cases hc : k ∈ s.failGet
  · simp [hc] at h
  · simp only [hc, if_false] at h
    refine ⟨hc, ?_⟩
    cases hl : lookupKey s.objects k <;> simp [hl] at h <;> simp [h]

lemma getObject_of_lookup (s : Store) (k : String) (b : Blob)
    (hg : k ∉ s.failGet) (hl : lookupKey s.objects k = some b) :
    s.getObject k = Except.ok b := by
  unfold Store.getObject
  simp [hg, hl]

lemma release_eq (s : Store) (wid : String) :
    release_gpu_lock s wid =
      if lockKey wid ∈ s.failDelete then s
      else { s with objects := removeKey s.objects (lockKey wid) } := by
  unfold release_gpu_lock Store.removeObject
  by_cases hc : lockKey wid ∈ s.failDelete <;> simp [hc]

lemma release_lookup_ne (s : Store) (wid k' : String) (h : k' ≠ lockKey wid) :
    lookupKey (release_gpu_lock s wid).objects k' = lookupKey s.objects k' := by
  rw [release_eq]
  split
  · rfl
  · exact lookupKey_removeKey_ne _ _ _ h

lemma release_lock_absent (s : Store) (wid : String)
    (hd : lockKey wid ∉ s.failDelete)
    : lookupKey (release_gpu_lock s wid).objects (lockKey wid) = none := by
  rw [release_eq, if_neg hd]
  exact lookupKey_removeKey_self _ _

lemma release_flags (s : Store) (wid : String) :
    (release_gpu_lock s wid).failGet = s.failGet ∧
    (release_gpu_lock s wid).failPut = s.failPut ∧
    (release_gpu_lock s wid).failDelete = s.failDelete ∧
    (release_gpu_lock s wid).failList = s.failList := by
  rw [release_eq]
  split <;> simp

lemma update_spec (s : Store) (wid now jobId status : String) (results : Option Meta)
    (m : Meta)
    (hg : metaKey jobId ∉ s.failGet)
    (hm : lookupKey s.objects (metaKey jobId) = some (Blob.jmeta m))
    (hp : metaKey jobId ∉ s.failPut) :
    update_job_status s wid now jobId status results =
      (true, { s with objects := putKey s.objects (metaKey jobId)
                        (Blob.jmeta (bumpMeta m status wid now)) }) := by
  unfold update_job_status
  rw [getObject_of_lookup s _ _ hg hm]
  unfold Store.putObject
  simp [hp]

lemma update_flags (s : Store) (wid now jobId status : String) (r : Option Meta) :
    (update_job_status s wid now jobId status r).2.failGet = s.failGet ∧
    (update_job_status s wid now jobId status r).2.failPut = s.failPut ∧
    (update_job_status s wid now jobId status r).2.failDelete = s.failDelete ∧
    (update_job_status s wid now jobId status r).2.failList = s.failList := by
  unfold update_job_status
  cases hG : s.getObject (metaKey jobId) with
  | error e => simp
  | ok b =>
    cases b with
    | raw bs => simp
    | jmeta m =>
      cases hP : s.putObject (metaKey jobId) (Blob.jmeta (bumpMeta m status wid now)) with
      | error e => simp [hP]
      | ok s1 =>
        obtain ⟨-, rfl⟩ := putObject_ok _ _ _ _ hP
        simp [hP]

lemma mem_dedupGo (l seen : List String) (x : String) :
    x ∈ dedupGo l seen ↔ x ∈ l ∧ x ∉ seen := by
  induction l generalizing seen with
  | nil => simp [dedupGo]
  | cons y ys ih =>
    by_cases hy : y ∈ seen
    · simp only [dedupGo, if_pos hy, ih, List.mem_cons]
      constructor
      · rintro ⟨hm, hn⟩
        exact ⟨Or.inr hm, hn⟩
      · rintro ⟨hm | hm, hn⟩
        · exact absurd hy (hm ▸ hn)
        · exact ⟨hm, hn⟩
    · simp only [dedupGo, if_neg hy, List.mem_cons, ih, List.mem_cons]
      constructor
      · rintro (rfl | ⟨hm, hn⟩)
        · exact ⟨Or.inl rfl, hy⟩
        · exact ⟨Or.inr hm, fun hs => hn (Or.inr hs)⟩
      · rintro ⟨hm | hm, hn⟩
        · exact Or.inl hm
        · by_cases hxy : x = y
          · exact Or.inl hxy
          · exact Or.inr ⟨hm, fun hs => by
              rcases hs with hs | hs
              · exact hxy hs
              · exact hn hs⟩

lemma mem_dedupKeepFirst (l : List String) (x : String) :
    x ∈ dedupKeepFirst l ↔ x ∈ l := by
  simp [dedupKeepFirst, mem_dedupGo]

lemma takeUntilSlash_no_slash (l l0 : List Char)
    (h : takeUntilSlash l = some l0) : '/' ∉ l0 := by
  induction l generalizing l0 with
  | nil => simp [takeUntilSlash] at h
  | cons c rest ih =>
    by_cases hc : c = '/'
    · simp [takeUntilSlash, hc] at h
      simp [h]
    · simp only [takeUntilSlash, if_neg hc] at h
      cases ht : takeUntilSlash rest with
      | none => rw [ht] at h; simp at h
      | some l1 =>
        rw [ht] at h
        simp at h
        rw [← h]
        intro hm
        rcases List.mem_cons.mp hm with hm | hm
        · exact hc hm.symm
        · exact ih l1 ht hm

lemma takeUntilSlash_append (l r : List Char) (h : '/' ∉ l) :
    takeUntilSlash (l ++ '/' :: r) = some l := by
  induction l with
  | nil => simp [takeUntilSlash]
  | cons c cs ih =>
    have hc : c ≠ '/' := by
      intro hh
      exact h (hh ▸ List.mem_cons_self c cs)
    have hcs : '/' ∉ cs := fun hm => h (List.mem_cons_of_mem c hm)
    simp only [List.cons_append, takeUntilSlash, if_neg hc, List.append_eq, ih hcs]

lemma toList_append (a b : String) : (a ++ b).toList = a.toList ++ b.toList := by
  cases a
  cases b
  rfl

lemma mk_toList (a : String) : String.mk a.toList = a := by
  cases a
  rfl

lemma dirOfKey_no_slash (k j : String) (h : dirOfKey k = some j) :
    '/' ∉ j.toList := by
  unfold dirOfKey at h
  cases ht : takeUntilSlash k.toList with
  | none => rw [ht] at h; simp at h
  | some l0 =>
    rw [ht] at h
    simp at h
    have := takeUntilSlash_no_slash _ _ ht
    rw [← h]
    exact this

lemma dirOfKey_metaKey (j : String) (h : '/' ∉ j.toList) :
    dirOfKey (metaKey j) = some j := by
  unfold dirOfKey metaKey
  rw [toList_append]
  have h2 : ("/metadata.json").toList = '/' :: "metadata.json".toList := by decide
  rw [h2, takeUntilSlash_append _ _ h]
  simp [mk_toList]

lemma filterMap_fst_sublist (f : String → Option (String × Meta))
    (h : ∀ d p, f d = some p → p.1 = d) (l : List String) :
    List.Sublist ((l.filterMap f).map Prod.fst) l := by
  induction l with
  | nil => simp
  | cons d rest ih =>
    cases hf : f d with
    | none => simp only [List.filterMap_cons, hf]; exact ih.cons d
    | some p =>
      simp only [List.filterMap_cons, hf, List.map_cons]
      rw [h d p hf]
      exact ih.cons₂ d

lemma removeTemp_not_mem (l : List Nat) (t : Nat) (h : t ∉ l) :
    removeTemp l t = l := by
  induction l with
  | nil => rfl
  | cons x xs ih =>
    have hx : x ≠ t := fun hh => h (hh ▸ List.mem_cons_self x xs)
    have hxs : t ∉ xs := fun hm => h (List.mem_cons_of_mem x hm)
    simp [removeTemp, hx, ih hxs]

lemma lockCount_release_le (s : Store) (wid : String) :
    lockCount (release_gpu_lock s wid) ≤ lockCount s := by
  rw [release_eq]
  split
  · exact le_refl _
  · exact keysUnder_removeKey_le _ _ _

lemma lockCount_acquire_le (n : Int) (s : Store) (wid : String)
    (h : (lockCount s : Int) ≤ n) :
    (lockCount (acquire_gpu_lock (fun t => t) s wid n).2 : Int) ≤ n := by
  unfold acquire_gpu_lock Store.listKeysUnder Store.putObject Store.removeObject
  by_cases h0 : n ≤ 0
  · simpa [h0] using h
  · by_cases hL : s.failList
    · simpa [h0, hL] using h
    · simp only [h0, if_false, hL, Bool.false_eq_true]
      by_cases hlt : ((keysUnder s.objects "gpu_locks/").length : Int) < n
      · by_cases hP : lockKey wid ∈ s.failPut
        · simpa [hlt, hP] using h
        · simp only [hlt, if_pos, hP, if_neg, if_false]
          have hcnt : (lockCount (withLock s wid) : Int) ≤ n := by
            have := keysUnder_putKey_le s.objects (lockKey wid) (Blob.raw "LOCKED")
              "gpu_locks/"
            unfold lockCount withLock at *
            simp only at *
            omega
          by_cases hgt :
              ((keysUnder (putKey s.objects (lockKey wid) (Blob.raw "LOCKED"))
                "gpu_locks/").length : Int) > n
          · by_cases hD : lockKey wid ∈ s.failDelete
            · simpa [hgt, hD, withLock, lockCount] using hcnt
            · simp only [hgt, if_pos, hD, if_neg, if_false]
              have := keysUnder_removeKey_le
                (putKey s.objects (lockKey wid) (Blob.raw "LOCKED")) (lockKey wid)
                "gpu_locks/"
              unfold lockCount withLock at *
              simp only at *
              omega
          · simpa [hgt, withLock, lockCount] using hcnt
      · simpa [hlt] using h

lemma lockCount_applyLeaseOp_le (n : Int) (s : Store) (op : LeaseOp)
    (h : (lockCount s : Int) ≤ n) :
    (lockCount (applyLeaseOp n s op) : Int) ≤ n := by
  cases op with
  | acq wid => exact lockCount_acquire_le n s wid h
  | rel wid =>
    have h2 := lockCount_release_le s wid
    simp only [applyLeaseOp]
    omega

lemma lockCount_runLeaseOps_le (n : Int) (ops : List LeaseOp) (s : Store)
    (h : (lockCount s : Int) ≤ n) :
    (lockCount (runLeaseOps n s ops) : Int) ≤ n := by
  induction ops generalizing s with
  | nil => simpa [runLeaseOps] using h
  | cons op rest ih =>
    exact ih _ (lockCount_applyLeaseOp_le n s op h)

lemma acquire_race_cleanup (race : Store → Store) (s : Store) (wid : String) (n : Int)
    (hL : s.failList = false)
    (hP : lockKey wid ∉ s.failPut)
    (hlt : (lockCount s : Int) < n)
    (hL2 : (race (withLock s wid)).failList = false)
    (hgt : (lockCount (race (withLock s wid)) : Int) > n)
    (hD : lockKey wid ∉ (race (withLock s wid)).failDelete) :
    acquire_gpu_lock race s wid n = (false, dropOwnLock (race (withLock s wid)) wid) := by
  have hge : (0 : Int) ≤ (lockCount s : Int) := Int.natCast_nonneg _
  have h0 : ¬ n ≤ 0 := by omega
  unfold lockCount at hlt hgt
  unfold withLock at hL2 hgt hD ⊢
  unfold dropOwnLock
  unfold acquire_gpu_lock Store.listKeysUnder Store.putObject Store.removeObject
  rw [hL] at hL2 hgt hD ⊢
  simp [h0, hlt, hP, hL2, hgt, hD]

lemma pendingEntry_some (s : Store) (d j : String) (m : Meta)
    (hf : pendingEntry s d = some (j, m)) :
    d = j ∧ d ≠ "workers" ∧ d ≠ "gpu_locks" ∧
    s.getObject (metaKey d) = Except.ok (Blob.jmeta m) ∧
    metaGet m "status" = some (Jval.jstr "pending") := by
  unfold pendingEntry at hf
  by_cases hres : d = "workers" ∨ d = "gpu_locks"
  · simp [hres] at hf
  · simp only [hres, if_false] at hf
    cases hgo : s.getObject (metaKey d) with
    | error e => rw [hgo] at hf; simp at hf
    | ok b =>
      rw [hgo] at hf
      cases b with
      | raw bs => simp at hf
      | jmeta m0 =>
        have hf2 : (if metaGet m0 "status" = some (Jval.jstr "pending")
            then some (d, m0) else none) = some (j, m) := hf
        by_cases hst : metaGet m0 "status" = some (Jval.jstr "pending")
        · rw [if_pos hst] at hf2
          have h1 := Option.some.inj hf2
          have hdj : d = j := congrArg Prod.fst h1
          have hmm : m0 = m := congrArg Prod.snd h1
          subst hdj
          subst hmm
          exact ⟨rfl, (not_or.mp hres).1, (not_or.mp hres).2, rfl, hst⟩
        · simp [hst] at hf2

lemma pendingEntry_of (s : Store) (j : String) (m : Meta)
    (hw : j ≠ "workers") (hg : j ≠ "gpu_locks")
    (hgo : s.getObject (metaKey j) = Except.ok (Blob.jmeta m))
    (hst : metaGet m "status" = some (Jval.jstr "pending")) :
    pendingEntry s j = some (j, m) := by
  unfold pendingEntry
  simp [hw, hg, hgo, hst]

lemma get_pending_jobs_eq (s : Store) (hL : s.failList = false) :
    get_pending_jobs s = (topDirs s).filterMap (pendingEntry s) := by
  unfold get_pending_jobs Store.listTopDirs
  simp [hL]

lemma get_pending_jobs_of_failList (s : Store) (hL : s.failList = true) :
    get_pending_jobs s = [] := by
  unfold get_pending_jobs Store.listTopDirs
  simp [hL]

lemma removeTemp_cons_self (l : List Nat) (t : Nat) :
    removeTemp (t :: l) t = removeTemp l t := by
  simp [removeTemp]

lemma update_failDelete (s : Store) (wid now jobId status : String) (r : Option Meta) :
    (update_job_status s wid now jobId status r).2.failDelete = s.failDelete :=
  (update_flags s wid now jobId status r).2.2.1

lemma finallyCleanup_none (wid : String) (w2 : WState)
    (hD : lockKey wid ∉ w2.store.failDelete) :
    lookupKey (finallyCleanup wid none w2).store.objects (lockKey wid) = none ∧
    (finallyCleanup wid none w2).temps = w2.temps := by
  unfold finallyCleanup
  exact ⟨release_lock_absent _ _ hD, rfl⟩

lemma finallyCleanup_some (wid : String) (t : Nat) (w2 : WState) (temps0 : List Nat)
    (hD : lockKey wid ∉ w2.store.failDelete)
    (ht : w2.temps = t :: temps0) (hnm : t ∉ temps0) :
    lookupKey (finallyCleanup wid (some t) w2).store.objects (lockKey wid) = none ∧
    (finallyCleanup wid (some t) w2).temps = temps0 := by
  unfold finallyCleanup
  refine ⟨release_lock_absent _ _ hD, ?_⟩
  simp [ht, removeTemp_cons_self, removeTemp_not_mem _ _ hnm]

/-- C7: a non-positive lease limit disables leasing — every acquisition
request succeeds immediately and the bucket is untouched (no listing and
no lease key written), whatever state or faults the store is in. -/
theorem lease_disabled_when_nonpositive
    (race : Store → Store) (s : Store) (wid : String) (n : Int) (h : n ≤ 0) :
    acquire_gpu_lock race s wid n = (true, s) := by
  simp [acquire_gpu_lock, h]

/-- Witness for C7: limit 0 over a bucket whose listing raises still
succeeds at once, leaving the bucket as it was. -/
theorem lease_disabled_when_nonpositive_spot :
    acquire_gpu_lock (fun t => t) demoBroken "w1" 0 = (true, demoBroken) :=
  lease_disabled_when_nonpositive (fun t => t) demoBroken "w1" 0 (by decide)

/-- C6: lease release is idempotent and total — it returns a store rather
than raising, releasing twice equals releasing once, and releasing when
the caller's lease key is not in the store leaves the store unchanged. -/
theorem release_lock_idempotent (s : Store) (wid : String) :
    release_gpu_lock (release_gpu_lock s wid) wid = release_gpu_lock s wid ∧
    (lookupKey s.objects (lockKey wid) = none → release_gpu_lock s wid = s) := by
  constructor
  · by_cases hD : lockKey wid ∈ s.failDelete
    · have h1 : release_gpu_lock s wid = s := by rw [release_eq, if_pos hD]
      rw [h1]
      exact h1
    · have h1 : release_gpu_lock s wid =
          { s with objects := removeKey s.objects (lockKey wid) } := by
        rw [release_eq, if_neg hD]
      rw [h1, release_eq]
      split
      · rfl
      · simp [removeKey_of_lookup_none _ _ (lookupKey_removeKey_self s.objects (lockKey wid))]
  · intro hnone
    rw [release_eq]
    split
    · rfl
    · simp [removeKey_of_lookup_none _ _ hnone]

/-- Witness for C6: on the empty bucket a double release equals a single
one and a release of the missing key is a no-op. -/
theorem release_lock_idempotent_spot :
    release_gpu_lock (release_gpu_lock emptyStore "w1") "w1" =
      release_gpu_lock emptyStore "w1" ∧
    release_gpu_lock emptyStore "w1" = emptyStore :=
  ⟨(release_lock_idempotent emptyStore "w1").1,
   (release_lock_idempotent emptyStore "w1").2 (by decide)⟩

/-- C3: with lease limit n, serialized acquisition and release operations
never push the number of held lease keys above n; and an acquisition
whose re-listing after its own write finds the count above n deletes its
own just-written key and reports failure. -/
theorem lease_bound_and_race_cleanup :
    (∀ (n : Int) (ops : List LeaseOp) (s : Store), 0 < n →
      (lockCount s : Int) ≤ n → (lockCount (runLeaseOps n s ops) : Int) ≤ n) ∧
    (∀ (race : Store → Store) (s : Store) (wid : String) (n : Int),
      s.failList = false →
      lockKey wid ∉ s.failPut →
      (lockCount s : Int) < n →
      (race (withLock s wid)).failList = false →
      (lockCount (race (withLock s wid)) : Int) > n →
      lockKey wid ∉ (race (withLock s wid)).failDelete →
      acquire_gpu_lock race s wid n = (false, dropOwnLock (race (withLock s wid)) wid)) :=
  ⟨fun n ops s _ h => lockCount_runLeaseOps_le n ops s h, acquire_race_cleanup⟩

/-- Witness for C3: four serialized operations under limit 1 stay within
the bound, and a raced acquisition under limit 1 whose window gains a
second worker's key cleans up its own key and fails. -/
theorem lease_bound_and_race_cleanup_spot :
    (lockCount (runLeaseOps 1 emptyStore
      [LeaseOp.acq "w1", LeaseOp.acq "w2", LeaseOp.rel "w1", LeaseOp.acq "w3"]) : Int) ≤ 1 ∧
    acquire_gpu_lock demoRace emptyStore "w1" 1 =
      (false, dropOwnLock (demoRace (withLock emptyStore "w1")) "w1") :=
  ⟨lease_bound_and_race_cleanup.1 1
      [LeaseOp.acq "w1", LeaseOp.acq "w2", LeaseOp.rel "w1", LeaseOp.acq "w3"]
      emptyStore (by decide) (by decide),
   lease_bound_and_race_cleanup.2 demoRace emptyStore "w1" 1 (by decide) (by decide)
      (by decide) (by decide) (by decide) (by decide)⟩

/-- C9: a status update on a readable and writable record succeeds and
rewrites exactly the status, worker_id and updated_at fields of the
stored record, preserving every other field; the worker_id field is
overwritten with the caller's id for every status argument — the
transition to processing, the requeue to pending and the terminal
completed and failed alike — and no other key of the bucket changes. -/
theorem update_status_frame
    (s : Store) (wid now jobId status : String) (results : Option Meta) (m : Meta)
    (hg : metaKey jobId ∉ s.failGet)
    (hm : lookupKey s.objects (metaKey jobId) = some (Blob.jmeta m))
    (hp : metaKey jobId ∉ s.failPut) :
    (update_job_status s wid now jobId status results).1 = true ∧
    lookupKey (update_job_status s wid now jobId status results).2.objects
      (metaKey jobId) = some (Blob.jmeta (bumpMeta m status wid now)) ∧
    (∀ k, k ≠ "status" → k ≠ "worker_id" → k ≠ "updated_at" →
      metaGet (bumpMeta m status wid now) k = metaGet m k) ∧
    metaGet (bumpMeta m status wid now) "worker_id" = some (Jval.jstr wid) ∧
    metaGet (bumpMeta m status wid now) "status" = some (Jval.jstr status) ∧
    (∀ k', k' ≠ metaKey jobId →
      lookupKey (update_job_status s wid now jobId status results).2.objects k' =
        lookupKey s.objects k') := by
  have hu := update_spec s wid now jobId status results m hg hm hp
  refine ⟨by rw [hu], ?_, ?_, ?_, ?_, ?_⟩
  · rw [hu]
    exact lookupKey_putKey_self _ _ _
  · intro k h1 h2 h3
    unfold bumpMeta
    rw [metaGet_setKey_ne _ _ _ _ h3, metaGet_setKey_ne _ _ _ _ h2,
      metaGet_setKey_ne _ _ _ _ h1]
  · unfold bumpMeta
    rw [metaGet_setKey_ne _ _ _ _ (by decide), metaGet_setKey_self]
  · unfold bumpMeta
    rw [metaGet_setKey_ne _ _ _ _ (by decide), metaGet_setKey_ne _ _ _ _ (by decide),
      metaGet_setKey_self]
  · intro k' hk
    rw [hu]
    exact lookupKey_putKey_ne _ _ _ _ hk

/-- Witness for C9: a requeue-to-pending update on the demo bucket
succeeds, rewrites worker_id even though the transition is not a claim,
and leaves the untouched bus_number field as it was. -/
theorem update_status_frame_spot :
    (update_job_status demoStore "w1" "T1" "jobA" "pending" none).1 = true ∧
    metaGet (bumpMeta demoMeta "pending" "w1" "T1") "worker_id" =
      some (Jval.jstr "w1") ∧
    metaGet (bumpMeta demoMeta "pending" "w1" "T1") "bus_number" =
      metaGet demoMeta "bus_number" :=
  have h := update_status_frame demoStore "w1" "T1" "jobA" "pending" none demoMeta
    (by decide) (by decide) (by decide)
  ⟨h.1, h.2.2.2.1, h.2.2.1 "bus_number" (by decide) (by decide) (by decide)⟩

/-- C1: a claim attempt on the record currently stored under the job id
(the record as read): when the record's status is not pending the claim
reports not-claimed and the bucket is left exactly unchanged — no write
happens; only when the status is pending at that read does the claim
overwrite the record with status processing and report claimed. -/
theorem claim_checks_pending_then_overwrites
    (s : Store) (wid now jobId : String) (meta : Meta)
    (hm : lookupKey s.objects (metaKey jobId) = some (Blob.jmeta meta)) :
    (metaGet meta "status" ≠ some (Jval.jstr "pending") →
      claim_job s wid now jobId meta = (false, s)) ∧
    (metaGet meta "status" = some (Jval.jstr "pending") →
     metaKey jobId ∉ s.failGet → metaKey jobId ∉ s.failPut →
      claim_job s wid now jobId meta =
        (true, { s with objects := putKey s.objects (metaKey jobId) (Blob.jmeta (bumpMeta meta "processing" wid now)) }) ∧
      lookupKey (claim_job s wid now jobId meta).2.objects (metaKey jobId) =
        some (Blob.jmeta (bumpMeta meta "processing" wid now))) := by
  constructor
  · intro hne
    simp [claim_job, hne]
  · intro hpend hg hp
    have hu := update_spec s wid now jobId "processing" none meta hg hm hp
    constructor
    · simp [claim_job, hpend, hu]
    · simp [claim_job, hpend, hu, lookupKey_putKey_self]

/-- Witness for C1: on the demo bucket, claiming the completed jobB is
refused with no write, while claiming the pending jobA overwrites its
record with status processing. -/
theorem claim_checks_pending_then_overwrites_spot :
    claim_job demoStore "w1" "T1" "jobB" [("status", Jval.jstr "completed")] =
      (false, demoStore) ∧
    lookupKey (claim_job demoStore "w1" "T1" "jobA" demoMeta).2.objects
      (metaKey "jobA") = some (Blob.jmeta (bumpMeta demoMeta "processing" "w1" "T1")) :=
  ⟨(claim_checks_pending_then_overwrites demoStore "w1" "T1" "jobB"
      [("status", Jval.jstr "completed")] (by decide)).1 (by decide),
   ((claim_checks_pending_then_overwrites demoStore "w1" "T1" "jobA" demoMeta
      (by decide)).2 (by decide) (by decide) (by decide)).2⟩

/-- C8: over a bucket whose listing and reads do not fault, the pending
listing returns exactly the pairs of a job directory and its stored,
parseable record with status pending, and an entry under the reserved
workers or gpu_locks key spaces is never among them. -/
theorem pending_listing_exact
    (s : Store) (j : String) (m : Meta)
    (hL : s.failList = false) (hG : s.failGet = []) :
    (j, m) ∈ get_pending_jobs s ↔
      (dirOfKey (metaKey j) = some j ∧ j ≠ "workers" ∧ j ≠ "gpu_locks" ∧
       lookupKey s.objects (metaKey j) = some (Blob.jmeta m) ∧
       metaGet m "status" = some (Jval.jstr "pending")) := by
  rw [get_pending_jobs_eq s hL, List.mem_filterMap]
  constructor
  · rintro ⟨d, hd, hf⟩
    obtain ⟨rfl, hw, hg, hgo, hst⟩ := pendingEntry_some s d j m hf
    have hlk := (getObject_ok _ _ _ hgo).2
    refine ⟨?_, hw, hg, hlk, hst⟩
    rw [topDirs, mem_dedupKeepFirst, List.mem_filterMap] at hd
    obtain ⟨p, hp1, hp2⟩ := hd
    exact dirOfKey_metaKey d (dirOfKey_no_slash p.1 d hp2)
  · rintro ⟨hdk, hw, hg, hlk, hst⟩
    refine ⟨j, ?_, pendingEntry_of s j m hw hg
      (getObject_of_lookup s _ _ (by rw [hG]; simp) hlk) hst⟩
    rw [topDirs, mem_dedupKeepFirst, List.mem_filterMap]
    exact ⟨(metaKey j, Blob.jmeta m), lookupKey_some_mem _ _ _ hlk, hdk⟩

/-- Witness for C8: on the demo bucket the pending jobA is listed (its
record satisfies the right-hand characterization by evaluation). -/
theorem pending_listing_exact_spot :
    ("jobA", demoMeta) ∈ get_pending_jobs demoStore :=
  (pending_listing_exact demoStore "jobA" demoMeta rfl rfl).mpr (by decide)

/-- C10: the pending listing never raises — a listing fault yields the
empty sequence; every returned entry comes from a successful read and
parse of that candidate's record (so a candidate whose read or parse
raises is skipped); the returned job ids form a subsequence of the
directory listing, in listing order; and the skipping is local — a
pending candidate whose own read does not fault and whose record parses
is still returned, whatever read faults or corrupt records the other
candidates have. -/
theorem pending_listing_total_and_skips (s : Store) :
    (s.failList = true → get_pending_jobs s = []) ∧
    (∀ j m, (j, m) ∈ get_pending_jobs s →
      s.getObject (metaKey j) = Except.ok (Blob.jmeta m) ∧
      metaGet m "status" = some (Jval.jstr "pending")) ∧
    List.Sublist ((get_pending_jobs s).map Prod.fst) (topDirs s) ∧
    (∀ j m, s.failList = false →
      dirOfKey (metaKey j) = some j →
      j ≠ "workers" → j ≠ "gpu_locks" →
      metaKey j ∉ s.failGet →
      lookupKey s.objects (metaKey j) = some (Blob.jmeta m) →
      metaGet m "status" = some (Jval.jstr "pending") →
      (j, m) ∈ get_pending_jobs s) := by
  refine ⟨fun hL => get_pending_jobs_of_failList s hL, ?_, ?_, ?_⟩
  · intro j m hmem
    by_cases hL : s.failList
    · rw [get_pending_jobs_of_failList s hL] at hmem
      simp at hmem
    · have hL' : s.failList = false := by simpa using hL
      rw [get_pending_jobs_eq s hL', List.mem_filterMap] at hmem
      obtain ⟨d, hd, hf⟩ := hmem
      obtain ⟨rfl, hw, hg, hgo, hst⟩ := pendingEntry_some s d j m hf
      exact ⟨hgo, hst⟩
  · by_cases hL : s.failList
    · rw [get_pending_jobs_of_failList s hL]
      simp
    · have hL' : s.failList = false := by simpa using hL
      rw [get_pending_jobs_eq s hL']
      apply filterMap_fst_sublist
      intro d p hf
      exact (pendingEntry_some s d p.1 p.2 hf).1.symm
  · intro j m hL hdk hw hg hfg hlk hst
    rw [get_pending_jobs_eq s hL, List.mem_filterMap]
    refine ⟨j, ?_, pendingEntry_of s j m hw hg
      (getObject_of_lookup s _ _ hfg hlk) hst⟩
    rw [topDirs, mem_dedupKeepFirst, List.mem_filterMap]
    exact ⟨(metaKey j, Blob.jmeta m), lookupKey_some_mem _ _ _ hlk, hdk⟩

/-- Witness for C10: the broken-listing bucket yields the empty sequence;
the listed jobA entry of the demo bucket comes from a successful read of
its stored pending record; and on the bucket where jobB's read faults
and jobC's record is corrupt, the intact pending jobA is still
returned. -/
theorem pending_listing_total_and_skips_spot :
    get_pending_jobs demoBroken = [] ∧
    Store.getObject demoStore (metaKey "jobA") = Except.ok (Blob.jmeta demoMeta) ∧
    ("jobA", demoMeta) ∈ get_pending_jobs demoFaulted :=
  ⟨(pending_listing_total_and_skips demoBroken).1 rfl,
   ((pending_listing_total_and_skips demoStore).2.1 "jobA" demoMeta (by decide)).1,
   (pending_listing_total_and_skips demoFaulted).2.2.2 "jobA" demoMeta rfl
     (by decide) (by decide) (by decide) (by decide) (by decide) (by decide)⟩

/-- C2 (code bug): a claimed job whose backend call raises a Timeout is
marked failed and the lease is released, but the error detail handed to
update_job_status is dropped on the floor — the final bucket holds
nothing beyond the rewritten record and the payload, the record carries
no error or results field, and no results.json object exists, so no
timeout indicator is readable downstream. -/
theorem timeout_marks_failed_but_drops_error_detail :
    (process_job ⟨false, BackendOutcome.timeout, "T1"⟩ "w1" "jobA" demoClaimedW).1 = false ∧
    (process_job ⟨false, BackendOutcome.timeout, "T1"⟩ "w1" "jobA" demoClaimedW).2.store.objects =
      [(metaKey "jobA", Blob.jmeta (bumpMeta demoClaimedMeta "failed" "w1" "T1")),
       (zipKey "jobA", Blob.raw "zipbytes")] ∧
    metaGet (bumpMeta demoClaimedMeta "failed" "w1" "T1") "status" =
      some (Jval.jstr "failed") ∧
    metaGet (bumpMeta demoClaimedMeta "failed" "w1" "T1") "error" = none ∧
    metaGet (bumpMeta demoClaimedMeta "failed" "w1" "T1") "results" = none ∧
    lookupKey (process_job ⟨false, BackendOutcome.timeout, "T1"⟩ "w1" "jobA"
      demoClaimedW).2.store.objects (resultsKey "jobA") = none ∧
    lookupKey (process_job ⟨false, BackendOutcome.timeout, "T1"⟩ "w1" "jobA"
      demoClaimedW).2.store.objects (lockKey "w1") = none ∧
    (process_job ⟨false, BackendOutcome.timeout, "T1"⟩ "w1" "jobA" demoClaimedW).2.failedCt = 1 := by
  decide

/-- C4: a claimed job whose backend call answers 503 is requeued, not
failed: the stored record transitions back to status pending, the
worker's attempt-level failed tally is incremented by exactly one (the
processed tally is untouched), and one back-off sleep is performed before
the worker continues. -/
theorem overload_requeues_to_pending
    (w : WState) (wid jobId now : String) (body : Meta) (text : String) (m : Meta)
    (hzne : zipKey jobId ≠ lockKey wid)
    (hmne : metaKey jobId ≠ lockKey wid)
    (hzg : zipKey jobId ∉ w.store.failGet)
    (hz : (lookupKey w.store.objects (zipKey jobId)).isSome = true)
    (hg : metaKey jobId ∉ w.store.failGet)
    (hm : lookupKey w.store.objects (metaKey jobId) = some (Blob.jmeta m))
    (hp : metaKey jobId ∉ w.store.failPut) :
    (process_job ⟨false, BackendOutcome.http 503 body text, now⟩ wid jobId w).1 = false ∧
    lookupKey (process_job ⟨false, BackendOutcome.http 503 body text, now⟩ wid jobId
      w).2.store.objects (metaKey jobId) =
      some (Blob.jmeta (bumpMeta m "pending" wid now)) ∧
    metaGet (bumpMeta m "pending" wid now) "status" = some (Jval.jstr "pending") ∧
    (process_job ⟨false, BackendOutcome.http 503 body text, now⟩ wid jobId
      w).2.failedCt = w.failedCt + 1 ∧
    (process_job ⟨false, BackendOutcome.http 503 body text, now⟩ wid jobId
      w).2.processedCt = w.processedCt ∧
    (process_job ⟨false, BackendOutcome.http 503 body text, now⟩ wid jobId
      w).2.backoffs = w.backoffs + 1 := by
  obtain ⟨zb, hzb⟩ := Option.isSome_iff_exists.mp hz
  have hz1 : lookupKey (putKey w.store.objects (lockKey wid) (Blob.raw "LOCKED"))
      (zipKey jobId) = some zb := by
    rw [lookupKey_putKey_ne _ _ _ _ hzne]
    exact hzb
  have hm1 : lookupKey (putKey w.store.objects (lockKey wid) (Blob.raw "LOCKED"))
      (metaKey jobId) = some (Blob.jmeta m) := by
    rw [lookupKey_putKey_ne _ _ _ _ hmne]
    exact hm
  have hget : Store.getObject
      { w.store with objects := putKey w.store.objects (lockKey wid) (Blob.raw "LOCKED") }
      (zipKey jobId) = Except.ok zb :=
    getObject_of_lookup _ _ _ hzg hz1
  have hupd := update_spec
    { w.store with objects := putKey w.store.objects (lockKey wid) (Blob.raw "LOCKED") }
    wid now jobId "pending" none m hg hm1 hp
  have hstat : metaGet (bumpMeta m "pending" wid now) "status" =
      some (Jval.jstr "pending") := by
    unfold bumpMeta
    rw [metaGet_setKey_ne _ _ _ _ (by decide), metaGet_setKey_ne _ _ _ _ (by decide),
      metaGet_setKey_self]
  have h200 : ((503 : Int) = 200) = False := by simp
  have h503 : ((503 : Int) = 503) = True := by simp
  unfold process_job
  simp only [hget, hupd, finallyCleanup, h200, h503, Bool.false_eq_true, if_false, if_true]
  refine ⟨by simp, ?_, hstat, by simp, by simp, by simp⟩
  rw [release_lookup_ne _ _ _ hmne]
  exact lookupKey_putKey_self _ _ _

/-- Witness for C4: the 503 outcome on the freshly claimed demo bucket
requeues jobA to pending with one failed attempt counted and one
back-off performed. -/
theorem overload_requeues_to_pending_spot :
    lookupKey (process_job ⟨false, BackendOutcome.http 503 [] "busy", "T1"⟩ "w1" "jobA"
      demoW).2.store.objects (metaKey "jobA") =
      some (Blob.jmeta (bumpMeta demoMeta "pending" "w1" "T1")) ∧
    (process_job ⟨false, BackendOutcome.http 503 [] "busy", "T1"⟩ "w1" "jobA"
      demoW).2.failedCt = demoW.failedCt + 1 ∧
    (process_job ⟨false, BackendOutcome.http 503 [] "busy", "T1"⟩ "w1" "jobA"
      demoW).2.backoffs = demoW.backoffs + 1 :=
  have h := overload_requeues_to_pending demoW "w1" "jobA" "T1" [] "busy" demoMeta
    (by decide) (by decide) (by decide) (by decide) (by decide) (by decide) (by decide)
  ⟨h.2.1, h.2.2.2.1, h.2.2.2.2.2⟩

/-- C5: on every exit path of process_job — backend success, overload,
timeout, any other exception, a failed payload download, or shutdown seen
before a slot was acquired — the finally block releases this worker's
lease (its lock key is absent from the final bucket) and removes the
temp directory it created, before control returns to the poll loop. -/
theorem cleanup_on_every_exit_path
    (env : PEnv) (wid jobId : String) (w : WState)
    (hD : lockKey wid ∉ w.store.failDelete)
    (hT : w.tempCtr ∉ w.temps) :
    lookupKey (process_job env wid jobId w).2.store.objects (lockKey wid) = none ∧
    (process_job env wid jobId w).2.temps = w.temps := by
  obtain ⟨sdw, backend, now⟩ := env
  cases sdw with
  | true =>
    unfold process_job
    rw [if_pos rfl]
    exact finallyCleanup_none wid w hD
  | false =>
    unfold process_job
    simp only [Bool.false_eq_true, if_false]
    split
    · exact finallyCleanup_some wid w.tempCtr _ w.temps
        (by simp only [update_failDelete]; exact hD) rfl hT
    · split
      · split
        · split
          · exact finallyCleanup_some wid w.tempCtr _ w.temps
              (by simp only [update_failDelete]; exact hD) rfl hT
          · rename_i sRes heq
            obtain ⟨-, rfl⟩ := putObject_ok _ _ _ _ heq
            exact finallyCleanup_some wid w.tempCtr _ w.temps
              (by simp only [update_failDelete]; exact hD) rfl hT
        · split
          · exact finallyCleanup_some wid w.tempCtr _ w.temps
              (by simp only [update_failDelete]; exact hD) rfl hT
          · exact finallyCleanup_some wid w.tempCtr _ w.temps
              (by simp only [update_failDelete]; exact hD) rfl hT
      · exact finallyCleanup_some wid w.tempCtr _ w.temps
          (by simp only [update_failDelete]; exact hD) rfl hT
      · exact finallyCleanup_some wid w.tempCtr _ w.temps
          (by simp only [update_failDelete]; exact hD) rfl hT

/-- Witness for C5: the timeout path on the demo bucket ends with the
worker's lock key absent and the temp list as it started. -/
theorem cleanup_on_every_exit_path_spot :
    lookupKey (process_job ⟨false, BackendOutcome.timeout, "T1"⟩ "w1" "jobA"
      demoW).2.store.objects (lockKey "w1") = none ∧
    (process_job ⟨false, BackendOutcome.timeout, "T1"⟩ "w1" "jobA" demoW).2.temps =
      demoW.temps :=
  cleanup_on_every_exit_path ⟨false, BackendOutcome.timeout, "T1"⟩ "w1" "jobA" demoW
    (by decide) (by decide)

end Consumer
